import Mathlib

/-!
Verification of the social/event backend's core behaviour: feed composition
(union of followed-user posts, popular posts, recent posts, deduplicated and
ordered), like toggling, and the follow/unfollow relation.

The embedding models the persistent store as an explicit snapshot value and
each view as a function over it.  Machine-level concerns (HTTP codes, ORM
query execution) are out of scope; the functions below mirror the filtering,
union, ordering and branching logic of the Python views.
-/

/-- A stored post row: primary key, author id, creation timestamp (seconds). -/
structure Post where
  id : Nat
  user : Nat
  created_at : Int
deriving DecidableEq, Repr

/-- A read-consistent snapshot of the store: post rows, like rows
(`(user, post)` pairs) and follow edges (`(follower, followee)` pairs). -/
structure Snapshot where
  posts : List Post
  likes : List (Nat × Nat)
  follows : List (Nat × Nat)
deriving DecidableEq, Repr

/-- `request.user.following.all()`: the users `v` follows in snapshot `s`. -/
def followingOf (s : Snapshot) (v : Nat) : List Nat :=
  (s.follows.filter (fun e => e.1 == v)).map (fun e => e.2)

/-- `Count('likes')` for a post id: the number of like rows pointing at it. -/
def likesCount (s : Snapshot) (pid : Nat) : Nat :=
  (s.likes.filter (fun e => e.2 == pid)).length

/-- The hardcoded popularity threshold (`likes_count__gte=5`). -/
def popularityThreshold : Nat := 5

/-- The hardcoded recency window, `timedelta(days=7)`, in seconds. -/
def recencyWindow : Int := 7 * 86400

/-- The ordering used by `order_by('-created_at')`: `a` may come before `b`
iff `a`'s creation timestamp is at least `b`'s (descending by timestamp). -/
def feedLE (a b : Post) : Prop := b.created_at ≤ a.created_at

instance : DecidableRel feedLE :=
  fun a b => inferInstanceAs (Decidable (b.created_at ≤ a.created_at))

instance : IsTotal Post feedLE :=
  ⟨fun a b => Or.symm (Int.le_total a.created_at b.created_at)⟩

instance : IsTrans Post feedLE :=
  ⟨fun _ _ _ h1 h2 => le_trans h2 h1⟩

/-- Worker for `dedupById`: drops any post whose id was already seen. -/
def dedupGo : List Post → List Nat → List Post
  | [], _ => []
  | p :: ps, seen =>
    if p.id ∈ seen then dedupGo ps seen else p :: dedupGo ps (p.id :: seen)

/-- SQL `UNION` deduplication: keep the first row for each post id. -/
def dedupById (l : List Post) : List Post := dedupGo l []

/-- Errors surfaced by the post views. -/
inductive ApiError
  | NotAuthenticated
  | NotFound
deriving DecidableEq, Repr

namespace PostFeedView

/-- `PostFeedView.get_queryset`: posts by followed users, posts with at least
5 likes, and posts created within the last 7 days, combined with `union`
(deduplicating) and ordered by `-created_at`.  `now` stands for the value
`timezone.now()` returns during the request; the sort over the union is
modelled as a stable sort of the store's enumeration order, since
`order_by('-created_at')` constrains only the timestamp order. -/
def get_queryset (viewer : Nat) (now : Int) (s : Snapshot) : List Post :=
  let following_posts := s.posts.filter (fun p => decide (p.user ∈ followingOf s viewer))
  let popular_posts := s.posts.filter (fun p => decide (popularityThreshold ≤ likesCount s p.id))
  let recent_posts := s.posts.filter (fun p => decide (now - recencyWindow ≤ p.created_at))
  List.insertionSort feedLE (dedupById (following_posts ++ popular_posts ++ recent_posts))

/-- The request handler: `permission_classes = [IsAuthenticated]` rejects a
request with no authenticated viewer before `get_queryset` runs. -/
def list (viewer : Option Nat) (now : Int) (s : Snapshot) : Except ApiError (List Post) :=
  match viewer with
  | none => .error .NotAuthenticated
  | some v => .ok (get_queryset v now s)

end PostFeedView

namespace PostLikeView

/-- The reported toggle state: `liked` (201) or `unliked` (200). -/
inductive LikeStatus
  | liked
  | unliked
deriving DecidableEq, Repr

/-- The response body of `PostLikeView.create`: the message's state together
with `post.likes.count()` evaluated after the mutation. -/
structure ToggleResult where
  state : LikeStatus
  likes_count : Nat
deriving DecidableEq, Repr

/-- `PostLikeView.create`: `get_object_or_404` on the post id, then
`Like.objects.get_or_create` keyed by `(user, post)`; if the like already
existed it is deleted (`unliked`), otherwise the fresh like stays (`liked`).
Returns the resulting store alongside the response. -/
def create (s : Snapshot) (u pid : Nat) : Snapshot × Except ApiError ToggleResult :=
  if ∃ p ∈ s.posts, p.id = pid then
    if (u, pid) ∈ s.likes then
      let s1 : Snapshot := ⟨s.posts, s.likes.erase (u, pid), s.follows⟩
      (s1, .ok ⟨.unliked, likesCount s1 pid⟩)
    else
      let s1 : Snapshot := ⟨s.posts, (u, pid) :: s.likes, s.follows⟩
      (s1, .ok ⟨.liked, likesCount s1 pid⟩)
  else (s, .error .NotFound)

end PostLikeView

/-- Errors surfaced by the follow/unfollow views. -/
inductive FollowError
  | UserNotFound
  | AlreadyFollowing
  | SelfFollowError
  | NotFollowing
deriving DecidableEq, Repr

/-- The accounts-side store: registered user ids and follow edges
(`(follower, followee)` pairs). -/
structure AState where
  users : List Nat
  follows : List (Nat × Nat)
deriving DecidableEq, Repr

/-- `follow_user`: look up the target (404 if absent), reject if already
followed, reject self-follow, otherwise add the edge.  The branch order
matches the view: the already-following check precedes the self check. -/
def follow_user (s : AState) (requester target : Nat) : AState × Option FollowError :=
  if target ∉ s.users then (s, some .UserNotFound)
  else if (requester, target) ∈ s.follows then (s, some .AlreadyFollowing)
  else if target = requester then (s, some .SelfFollowError)
  else (⟨s.users, (requester, target) :: s.follows⟩, none)

/-- `unfollow_user`: look up the target, reject when the edge is absent,
otherwise remove it. -/
def unfollow_user (s : AState) (requester target : Nat) : AState × Option FollowError :=
  if target ∉ s.users then (s, some .UserNotFound)
  else if (requester, target) ∉ s.follows then (s, some .NotFollowing)
  else (⟨s.users, s.follows.erase (requester, target)⟩, none)

/-- One state transition of the accounts subsystem: a registration or an
invocation of `follow_user` / `unfollow_user` (failed calls leave the state
unchanged, so including them is harmless). -/
inductive Step : AState → AState → Prop
  | register (s : AState) (u : Nat) : Step s ⟨u :: s.users, s.follows⟩
  | follow (s : AState) (r t : Nat) : Step s (follow_user s r t).1
  | unfollow (s : AState) (r t : Nat) : Step s (unfollow_user s r t).1

/-- States reachable from the empty store by the operations above. -/
inductive Reachable : AState → Prop
  | init : Reachable ⟨[], []⟩
  | step {s t : AState} : Reachable s → Step s t → Reachable t

theorem mem_of_mem_dedupGo {q : Post} {l : List Post} :
    ∀ (seen : List Nat), q ∈ dedupGo l seen → q ∈ l := by
  induction l with
  | nil => intro seen h; simp [dedupGo] at h
  | cons p ps ih =>
    intro seen h
    by_cases hp : p.id ∈ seen
    · simp only [dedupGo, if_pos hp] at h
      exact List.mem_cons_of_mem p (ih seen h)
    · simp only [dedupGo, if_neg hp] at h
      rcases List.mem_cons.mp h with rfl | h2
      · exact List.mem_cons_self _ _
      · exact List.mem_cons_of_mem _ (ih (p.id :: seen) h2)

theorem dedupGo_ids (l : List Post) :
    ∀ seen : List Nat, (∀ q ∈ dedupGo l seen, q.id ∉ seen) ∧
      ((dedupGo l seen).map Post.id).Nodup := by
  induction l with
  | nil => intro seen; simp [dedupGo]
  | cons p ps ih =>
    intro seen
    by_cases hp : p.id ∈ seen
    · simp only [dedupGo, if_pos hp]
      exact ih seen
    · simp only [dedupGo, if_neg hp]
      refine ⟨?_, ?_⟩
      · intro q hq
        rcases List.mem_cons.mp hq with rfl | h2
        · exact hp
        · intro hin
          exact (ih (p.id :: seen)).1 q h2 (List.mem_cons_of_mem _ hin)
      · simp only [List.map_cons, List.nodup_cons]
        refine ⟨?_, (ih (p.id :: seen)).2⟩
        intro hmem
        rcases List.mem_map.mp hmem with ⟨q, hq, hid⟩
        exact (ih (p.id :: seen)).1 q hq
          (by rw [hid]; exact List.mem_cons_self _ _)

theorem exists_mem_dedupGo {q : Post} {l : List Post} :
    ∀ (seen : List Nat), q ∈ l →
      (∃ r ∈ dedupGo l seen, r.id = q.id) ∨ q.id ∈ seen := by
  induction l with
  | nil => intro seen h; simp at h
  | cons p ps ih =>
    intro seen h
    by_cases hp : p.id ∈ seen
    · simp only [dedupGo, if_pos hp]
      rcases List.mem_cons.mp h with rfl | h2
      · exact Or.inr hp
      · exact ih seen h2
    · simp only [dedupGo, if_neg hp]
      rcases List.mem_cons.mp h with rfl | h2
      · exact Or.inl ⟨q, List.mem_cons_self _ _, rfl⟩
      · rcases ih (p.id :: seen) h2 with ⟨r, hr, hid⟩ | hin
        · exact Or.inl ⟨r, List.mem_cons_of_mem _ hr, hid⟩
        · rcases List.mem_cons.mp hin with heq | hin2
          · exact Or.inl ⟨p, List.mem_cons_self _ _, heq.symm⟩
          · exact Or.inr hin2

theorem mem_dedupById_sub {q : Post} {l : List Post} (h : q ∈ dedupById l) :
    q ∈ l :=
  mem_of_mem_dedupGo [] h

theorem dedupById_ids_nodup (l : List Post) :
    ((dedupById l).map Post.id).Nodup :=
  (dedupGo_ids l []).2

theorem exists_mem_dedupById {q : Post} {l : List Post} (h : q ∈ l) :
    ∃ r ∈ dedupById l, r.id = q.id := by
  rcases exists_mem_dedupGo [] h with h1 | h2
  · exact h1
  · simp at h2

theorem mem_dedupById_iff {l : List Post}
    (hinj : ∀ a ∈ l, ∀ b ∈ l, a.id = b.id → a = b) {q : Post} :
    q ∈ dedupById l ↔ q ∈ l := by
  refine ⟨mem_dedupById_sub, fun h => ?_⟩
  rcases exists_mem_dedupById h with ⟨r, hr, hid⟩
  exact hinj r (mem_dedupById_sub hr) q h hid ▸ hr

theorem perm_cons_erase_beq {α : Type} [BEq α] [LawfulBEq α] {a : α} :
    ∀ {l : List α}, a ∈ l → List.Perm l (a :: l.erase a) := by
  intro l h
  induction l with
  | nil => cases h
  | cons b bs ih =>
    by_cases hba : b = a
    · subst hba
      rw [List.erase_cons_head]
    · have hbs : a ∈ bs := by
        rcases List.mem_cons.mp h with heq | h2
        · exact absurd heq.symm hba
        · exact h2
      rw [List.erase_cons_tail (by simp [hba])]
      exact ((ih hbs).cons b).trans (List.Perm.swap a b (bs.erase a))

theorem get_queryset_eq (v : Nat) (now : Int) (s : Snapshot) :
    PostFeedView.get_queryset v now s =
      List.insertionSort feedLE (dedupById
        (s.posts.filter (fun p => decide (p.user ∈ followingOf s v)) ++
         s.posts.filter (fun p => decide (popularityThreshold ≤ likesCount s p.id)) ++
         s.posts.filter (fun p => decide (now - recencyWindow ≤ p.created_at)))) :=
  rfl

theorem mem_feed_union_sub (v : Nat) (now : Int) (s : Snapshot) {a : Post}
    (h : a ∈ s.posts.filter (fun p => decide (p.user ∈ followingOf s v)) ++
         s.posts.filter (fun p => decide (popularityThreshold ≤ likesCount s p.id)) ++
         s.posts.filter (fun p => decide (now - recencyWindow ≤ p.created_at))) :
    a ∈ s.posts := by
  simp only [List.mem_append, List.mem_filter] at h
  tauto

theorem mem_get_queryset_iff (v : Nat) (now : Int) (s : Snapshot)
    (hids : (s.posts.map Post.id).Nodup) (p : Post) :
    p ∈ PostFeedView.get_queryset v now s ↔
      p ∈ s.posts ∧ (p.user ∈ followingOf s v ∨
        popularityThreshold ≤ likesCount s p.id ∨
        now - recencyWindow ≤ p.created_at) := by
  rw [get_queryset_eq, List.mem_insertionSort feedLE,
    mem_dedupById_iff (fun a ha b hb hab =>
      List.inj_on_of_nodup_map hids
        (mem_feed_union_sub v now s ha) (mem_feed_union_sub v now s hb) hab)]
  simp only [List.mem_append, List.mem_filter, decide_eq_true_eq]
  tauto

theorem get_queryset_sorted (v : Nat) (now : Int) (s : Snapshot) :
    List.Sorted feedLE (PostFeedView.get_queryset v now s) := by
  rw [get_queryset_eq]
  exact List.sorted_insertionSort feedLE _

theorem get_queryset_ids_nodup (v : Nat) (now : Int) (s : Snapshot) :
    ((PostFeedView.get_queryset v now s).map Post.id).Nodup := by
  rw [get_queryset_eq]
  exact ((List.perm_insertionSort feedLE _).map Post.id).nodup_iff.mpr
    (dedupById_ids_nodup _)

theorem feed_contains_id (v : Nat) (now : Int) (s : Snapshot) {p : Post}
    (hp : p ∈ s.posts)
    (hcrit : p.user ∈ followingOf s v ∨
      popularityThreshold ≤ likesCount s p.id ∨
      now - recencyWindow ≤ p.created_at) :
    ∃ q ∈ PostFeedView.get_queryset v now s, q.id = p.id := by
  rw [get_queryset_eq]
  have hmem : p ∈ s.posts.filter (fun p => decide (p.user ∈ followingOf s v)) ++
      s.posts.filter (fun p => decide (popularityThreshold ≤ likesCount s p.id)) ++
      s.posts.filter (fun p => decide (now - recencyWindow ≤ p.created_at)) := by
    simp only [List.mem_append, List.mem_filter, decide_eq_true_eq]
    tauto
  rcases exists_mem_dedupById hmem with ⟨r, hr, hid⟩
  exact ⟨r, (List.mem_insertionSort feedLE).mpr hr, hid⟩

/-- C1 counterexample: the code orders only by `-created_at`, with no id
tie-break.  With two posts sharing a creation timestamp, enumerated by the
store in ascending id order, the feed keeps them in ascending id order —
not the claimed "ties broken by post identity descending". -/
theorem feed_tiebreak_counterexample :
    PostFeedView.get_queryset 1 100 ⟨[⟨1, 5, 100⟩, ⟨2, 6, 100⟩], [], []⟩ =
      [⟨1, 5, 100⟩, ⟨2, 6, 100⟩] ∧
    (⟨1, 5, 100⟩ : Post).created_at = (⟨2, 6, 100⟩ : Post).created_at ∧
    (⟨1, 5, 100⟩ : Post).id < (⟨2, 6, 100⟩ : Post).id ∧
    PostFeedView.get_queryset 1 100 ⟨[⟨1, 5, 100⟩, ⟨2, 6, 100⟩], [], []⟩ ≠
      [⟨2, 6, 100⟩, ⟨1, 5, 100⟩] := by decide

/-- C1 (amended): over a snapshot whose post ids are distinct, the feed
contains exactly the posts that are by a followed author, have at least 5
likes, or lie within the 7-day window; each id appears once; and the result
is sorted descending by creation timestamp.  The order among posts with
equal timestamps is not constrained by the code. -/
theorem feed_composition (v : Nat) (now : Int) (s : Snapshot)
    (hids : (s.posts.map Post.id).Nodup) :
    (∀ p, p ∈ PostFeedView.get_queryset v now s ↔
      p ∈ s.posts ∧ (p.user ∈ followingOf s v ∨
        popularityThreshold ≤ likesCount s p.id ∨
        now - recencyWindow ≤ p.created_at)) ∧
    ((PostFeedView.get_queryset v now s).map Post.id).Nodup ∧
    List.Sorted feedLE (PostFeedView.get_queryset v now s) :=
  ⟨fun p => mem_get_queryset_iff v now s hids p,
   get_queryset_ids_nodup v now s,
   get_queryset_sorted v now s⟩

/-- C1 witness: the amended theorem applied to a concrete snapshot. -/
theorem feed_composition_witness :
    (∀ p, p ∈ PostFeedView.get_queryset 9 0 ⟨[⟨4, 2, -10⟩], [], []⟩ ↔
      p ∈ (⟨[⟨4, 2, -10⟩], [], []⟩ : Snapshot).posts ∧
        (p.user ∈ followingOf ⟨[⟨4, 2, -10⟩], [], []⟩ 9 ∨
         popularityThreshold ≤ likesCount ⟨[⟨4, 2, -10⟩], [], []⟩ p.id ∨
         0 - recencyWindow ≤ p.created_at)) ∧
    ((PostFeedView.get_queryset 9 0 ⟨[⟨4, 2, -10⟩], [], []⟩).map Post.id).Nodup ∧
    List.Sorted feedLE (PostFeedView.get_queryset 9 0 ⟨[⟨4, 2, -10⟩], [], []⟩) :=
  feed_composition 9 0 ⟨[⟨4, 2, -10⟩], [], []⟩ (by decide)

/-- C2: for every viewer, clock value and snapshot, no post id appears twice
in the feed result, regardless of how many criteria a post satisfies. -/
theorem feed_each_post_at_most_once (v : Nat) (now : Int) (s : Snapshot) :
    ((PostFeedView.get_queryset v now s).map Post.id).Nodup :=
  get_queryset_ids_nodup v now s

/-- C4 counterexample: the feed view reads `timezone.now()` inside
`get_queryset` rather than receiving it from the caller, so with the viewer
and the data snapshot fixed, the result still changes with the ambient
clock value: the same request at two different times yields two different
feeds. -/
theorem feed_depends_on_internal_clock :
    PostFeedView.get_queryset 1 0 ⟨[⟨1, 2, 0⟩], [], []⟩ ≠
      PostFeedView.get_queryset 1 1000000 ⟨[⟨1, 2, 0⟩], [], []⟩ := by decide

/-- C4 (amended): the feed is deterministic once the internal clock reading
is fixed alongside the viewer and the snapshot: two runs that agree on all
three produce the same result sequence. -/
theorem feed_deterministic_given_clock (v1 v2 : Nat) (n1 n2 : Int)
    (s1 s2 : Snapshot) (hv : v1 = v2) (hn : n1 = n2) (hs : s1 = s2) :
    PostFeedView.get_queryset v1 n1 s1 = PostFeedView.get_queryset v2 n2 s2 := by
  rw [hv, hn, hs]

/-- C4 witness: determinism at a concrete viewer, clock and snapshot. -/
theorem feed_deterministic_given_clock_witness :
    PostFeedView.get_queryset 1 5 ⟨[⟨3, 4, 0⟩], [], []⟩ =
      PostFeedView.get_queryset 1 5 ⟨[⟨3, 4, 0⟩], [], []⟩ :=
  feed_deterministic_given_clock 1 1 5 5 ⟨[⟨3, 4, 0⟩], [], []⟩
    ⟨[⟨3, 4, 0⟩], [], []⟩ rfl rfl rfl

/-- C6: viewer 100 follows only user 1; user 1 has post 1 (2 likes, one day
old), user 2 has post 2 (6 likes, thirty days old), user 3 has post 3 (no
likes, one hour old).  The feed contains all three — post 1 via following,
post 2 via popularity, post 3 via recency — ordered by creation descending:
post 3, then post 1, then post 2. -/
theorem feed_three_source_scenario :
    PostFeedView.get_queryset 100 0
      ⟨[⟨1, 1, -86400⟩, ⟨2, 2, -2592000⟩, ⟨3, 3, -3600⟩],
       [(10, 2), (11, 2), (12, 2), (13, 2), (14, 2), (15, 2), (20, 1), (21, 1)],
       [(100, 1)]⟩ =
    [⟨3, 3, -3600⟩, ⟨1, 1, -86400⟩, ⟨2, 2, -2592000⟩] := by decide

/-- C5: the feed request fails exactly when the viewer identity is absent,
and then with `NotAuthenticated`; with a viewer present it never fails on
data: an empty following set still lets popular and recent posts into the
feed, and an empty post store yields `ok []`, not an error. -/
theorem feed_error_conditions (viewer : Option Nat) (now : Int) (s : Snapshot) :
    ((∃ e, PostFeedView.list viewer now s = .error e) ↔ viewer = none) ∧
    (viewer = none → PostFeedView.list viewer now s = .error .NotAuthenticated) ∧
    (∀ v, viewer = some v → followingOf s v = [] → ∀ p ∈ s.posts,
      (popularityThreshold ≤ likesCount s p.id ∨
        now - recencyWindow ≤ p.created_at) →
      ∃ q ∈ PostFeedView.get_queryset v now s, q.id = p.id) ∧
    (∀ v, viewer = some v → s.posts = [] →
      PostFeedView.list viewer now s = .ok []) := by
  refine ⟨⟨?_, ?_⟩, ?_, ?_, ?_⟩
  · rintro ⟨e, he⟩
    cases viewer with
    | none => rfl
    | some v => simp [PostFeedView.list] at he
  · rintro rfl
    exact ⟨.NotAuthenticated, rfl⟩
  · rintro rfl
    rfl
  · rintro v rfl _ p hp hcrit
    exact feed_contains_id v now s hp (Or.inr hcrit)
  · rintro v rfl hposts
    cases s with
    | mk ps ls fs =>
      simp only at hposts
      subst hposts
      rfl

/-- C5 witness: the theorem at concrete inputs — no viewer gives
`NotAuthenticated`, a viewer over an empty store gets an empty feed. -/
theorem feed_error_conditions_witness :
    PostFeedView.list none 0 ⟨[], [], []⟩ = .error .NotAuthenticated ∧
    PostFeedView.list (some 1) 0 ⟨[], [], []⟩ = .ok [] :=
  ⟨(feed_error_conditions none 0 ⟨[], [], []⟩).2.1 rfl,
   (feed_error_conditions (some 1) 0 ⟨[], [], []⟩).2.2.2 1 rfl rfl⟩

/-- C10: toggling a like on a post id that matches no stored post fails with
`NotFound` and leaves the store exactly as it was. -/
theorem toggle_like_missing_post (s : Snapshot) (u pid : Nat)
    (habs : ∀ p ∈ s.posts, p.id ≠ pid) :
    PostLikeView.create s u pid = (s, .error .NotFound) := by
  unfold PostLikeView.create
  rw [if_neg ?_]
  rintro ⟨p, hp, he⟩
  exact habs p hp he

/-- C10 witness: toggling post id 2 when only post id 1 exists. -/
theorem toggle_like_missing_post_witness :
    PostLikeView.create ⟨[⟨1, 1, 0⟩], [(9, 1)], []⟩ 7 2 =
      (⟨[⟨1, 1, 0⟩], [(9, 1)], []⟩, .error .NotFound) :=
  toggle_like_missing_post ⟨[⟨1, 1, 0⟩], [(9, 1)], []⟩ 7 2 (by decide)

/-- C3: over a store obeying the `unique_together` invariant (no duplicate
like rows) and containing the post, a single toggle creates the like and
reports `liked` when the pair is absent, deletes it and reports `unliked`
when present; toggling twice restores the pair's membership, and the second
response's `likes_count` equals the count before the first toggle. -/
theorem toggle_like_spec (s : Snapshot) (u pid : Nat)
    (hpost : ∃ p ∈ s.posts, p.id = pid) (hnd : s.likes.Nodup) :
    ((u, pid) ∉ s.likes →
      PostLikeView.create s u pid =
        (⟨s.posts, (u, pid) :: s.likes, s.follows⟩,
         .ok ⟨.liked, likesCount ⟨s.posts, (u, pid) :: s.likes, s.follows⟩ pid⟩)) ∧
    ((u, pid) ∈ s.likes →
      PostLikeView.create s u pid =
        (⟨s.posts, s.likes.erase (u, pid), s.follows⟩,
         .ok ⟨.unliked, likesCount ⟨s.posts, s.likes.erase (u, pid), s.follows⟩ pid⟩)) ∧
    ((u, pid) ∈ (PostLikeView.create (PostLikeView.create s u pid).1 u pid).1.likes ↔
      (u, pid) ∈ s.likes) ∧
    (PostLikeView.create (PostLikeView.create s u pid).1 u pid).2 =
      .ok ⟨if (u, pid) ∈ s.likes then .liked else .unliked, likesCount s pid⟩ := by
  by_cases hmem : (u, pid) ∈ s.likes
  case pos =>
    have h1 : PostLikeView.create s u pid =
        (⟨s.posts, s.likes.erase (u, pid), s.follows⟩,
         .ok ⟨.unliked, likesCount ⟨s.posts, s.likes.erase (u, pid), s.follows⟩ pid⟩) := by
      unfold PostLikeView.create
      rw [if_pos hpost, if_pos hmem]
    have hnot : (u, pid) ∉ s.likes.erase (u, pid) := hnd.not_mem_erase
    have h2 : PostLikeView.create ⟨s.posts, s.likes.erase (u, pid), s.follows⟩ u pid =
        (⟨s.posts, (u, pid) :: s.likes.erase (u, pid), s.follows⟩,
         .ok ⟨.liked,
           likesCount ⟨s.posts, (u, pid) :: s.likes.erase (u, pid), s.follows⟩ pid⟩) := by
      unfold PostLikeView.create
      rw [if_pos hpost, if_neg hnot]
    have hcount :
        likesCount ⟨s.posts, (u, pid) :: s.likes.erase (u, pid), s.follows⟩ pid =
          likesCount s pid := by
      show (List.filter (fun e => e.2 == pid) ((u, pid) :: s.likes.erase (u, pid))).length =
        (List.filter (fun e => e.2 == pid) s.likes).length
      exact (((perm_cons_erase_beq hmem).filter (fun e => e.2 == pid)).length_eq).symm
    have e1 : (PostLikeView.create s u pid).1 =
        ⟨s.posts, s.likes.erase (u, pid), s.follows⟩ := by rw [h1]
    have e2 : (PostLikeView.create (PostLikeView.create s u pid).1 u pid).1 =
        ⟨s.posts, (u, pid) :: s.likes.erase (u, pid), s.follows⟩ := by rw [e1, h2]
    have e3 : (PostLikeView.create (PostLikeView.create s u pid).1 u pid).2 =
        .ok ⟨.liked,
          likesCount ⟨s.posts, (u, pid) :: s.likes.erase (u, pid), s.follows⟩ pid⟩ := by
      rw [e1, h2]
    refine ⟨fun h => absurd hmem h, fun _ => h1, ?_, ?_⟩
    · rw [e2]
      exact iff_of_true (List.mem_cons_self _ _) hmem
    · rw [e3, hcount, if_pos hmem]
  case neg =>
    have h1 : PostLikeView.create s u pid =
        (⟨s.posts, (u, pid) :: s.likes, s.follows⟩,
         .ok ⟨.liked, likesCount ⟨s.posts, (u, pid) :: s.likes, s.follows⟩ pid⟩) := by
      unfold PostLikeView.create
      rw [if_pos hpost, if_neg hmem]
    have hmem1 : (u, pid) ∈ (u, pid) :: s.likes := List.mem_cons_self _ _
    have h2 : PostLikeView.create ⟨s.posts, (u, pid) :: s.likes, s.follows⟩ u pid =
        (⟨s.posts, ((u, pid) :: s.likes).erase (u, pid), s.follows⟩,
         .ok ⟨.unliked,
           likesCount ⟨s.posts, ((u, pid) :: s.likes).erase (u, pid), s.follows⟩ pid⟩) := by
      unfold PostLikeView.create
      rw [if_pos hpost, if_pos hmem1]
    have herase : ((u, pid) :: s.likes).erase (u, pid) = s.likes :=
      List.erase_cons_head _ _
    have e1 : (PostLikeView.create s u pid).1 =
        ⟨s.posts, (u, pid) :: s.likes, s.follows⟩ := by rw [h1]
    have e2 : (PostLikeView.create (PostLikeView.create s u pid).1 u pid).1 =
        ⟨s.posts, s.likes, s.follows⟩ := by rw [e1, h2, herase]
    have e3 : (PostLikeView.create (PostLikeView.create s u pid).1 u pid).2 =
        .ok ⟨.unliked, likesCount ⟨s.posts, s.likes, s.follows⟩ pid⟩ := by
      rw [e1, h2, herase]
    refine ⟨fun _ => h1, fun h => absurd h hmem, ?_, ?_⟩
    · rw [e2]
    · rw [e3, if_neg hmem]

/-- C3 witness: liking then unliking post 1 as user 7 over a one-post store
with no likes restores the empty membership and reports count 0. -/
theorem toggle_like_spec_witness :
    PostLikeView.create ⟨[⟨1, 1, 0⟩], [], []⟩ 7 1 =
      (⟨[⟨1, 1, 0⟩], [(7, 1)], []⟩, .ok ⟨.liked, 1⟩) ∧
    ((7, 1) ∈ (PostLikeView.create
        (PostLikeView.create ⟨[⟨1, 1, 0⟩], [], []⟩ 7 1).1 7 1).1.likes ↔
      (7, 1) ∈ ([] : List (Nat × Nat))) ∧
    (PostLikeView.create (PostLikeView.create ⟨[⟨1, 1, 0⟩], [], []⟩ 7 1).1 7 1).2 =
      .ok ⟨.unliked, 0⟩ := by
  have h := toggle_like_spec ⟨[⟨1, 1, 0⟩], [], []⟩ 7 1 (by decide) (by decide)
  exact ⟨h.1 (by decide), h.2.2.1, h.2.2.2⟩

theorem reachable_no_self_follow {s : AState} (h : Reachable s) :
    ∀ u : Nat, (u, u) ∉ s.follows := by
  induction h with
  | init => intro u hu; simp at hu
  | step hr hstep ih =>
    cases hstep with
    | register u' => exact ih
    | follow r t' =>
      intro u hu
      unfold follow_user at hu
      split at hu
      · exact ih u hu
      · split at hu
        · exact ih u hu
        · split at hu
          · exact ih u hu
          · rcases List.mem_cons.mp hu with heq | htail
            · injection heq with h4 h5
              rename_i hnself
              exact hnself (h5.symm.trans h4)
            · exact ih u htail
    | unfollow r t' =>
      intro u hu
      unfold unfollow_user at hu
      split at hu
      · exact ih u hu
      · split at hu
        · exact ih u hu
        · exact ih u (List.mem_of_mem_erase hu)

/-- C7: in every reachable store no user follows themselves, and a
registered user's attempt to follow themselves fails with `SelfFollowError`
leaving the store unchanged. -/
theorem no_self_follow_invariant (s : AState) (h : Reachable s) :
    (∀ u : Nat, (u, u) ∉ s.follows) ∧
    (∀ u ∈ s.users, follow_user s u u = (s, some .SelfFollowError)) := by
  refine ⟨reachable_no_self_follow h, ?_⟩
  intro u hu
  unfold follow_user
  rw [if_neg (fun hn => hn hu), if_neg (reachable_no_self_follow h u), if_pos rfl]

/-- C7 witness: the invariant and the self-follow rejection at the reachable
store holding one registered user and no follow edges. -/
theorem no_self_follow_invariant_witness :
    (∀ u : Nat, (u, u) ∉ (⟨[5], []⟩ : AState).follows) ∧
    (∀ u ∈ (⟨[5], []⟩ : AState).users,
      follow_user ⟨[5], []⟩ u u = (⟨[5], []⟩, some .SelfFollowError)) :=
  no_self_follow_invariant ⟨[5], []⟩
    (Reachable.step Reachable.init (Step.register ⟨[], []⟩ 5))

/-- C8: for a registered target distinct from the requester — following
fails with `AlreadyFollowing` exactly when the edge exists and otherwise
adds it; unfollowing fails with `NotFollowing` exactly when the edge is
absent, leaving the store unchanged, and otherwise removes it. -/
theorem follow_unfollow_branches (s : AState) (r t : Nat)
    (ht : t ∈ s.users) (hne : t ≠ r) :
    ((r, t) ∈ s.follows → follow_user s r t = (s, some .AlreadyFollowing)) ∧
    ((r, t) ∉ s.follows →
      follow_user s r t = (⟨s.users, (r, t) :: s.follows⟩, none)) ∧
    ((r, t) ∉ s.follows → unfollow_user s r t = (s, some .NotFollowing)) ∧
    ((r, t) ∈ s.follows →
      unfollow_user s r t = (⟨s.users, s.follows.erase (r, t)⟩, none)) := by
  have htt : ¬t ∉ s.users := fun hn => hn ht
  refine ⟨?_, ?_, ?_, ?_⟩
  · intro hmem
    unfold follow_user
    rw [if_neg htt, if_pos hmem]
  · intro hmem
    unfold follow_user
    rw [if_neg htt, if_neg hmem, if_neg hne]
  · intro hmem
    unfold unfollow_user
    rw [if_neg htt, if_pos hmem]
  · intro hmem
    unfold unfollow_user
    rw [if_neg htt, if_neg (not_not_intro hmem)]

/-- C8 witness: with users 1 and 2 and the edge (1, 2) present, a repeated
follow is rejected and an unfollow removes the edge; with the edge absent,
an unfollow is rejected and leaves the store unchanged. -/
theorem follow_unfollow_branches_witness :
    follow_user ⟨[1, 2], [(1, 2)]⟩ 1 2 =
      (⟨[1, 2], [(1, 2)]⟩, some .AlreadyFollowing) ∧
    unfollow_user ⟨[1, 2], [(1, 2)]⟩ 1 2 = (⟨[1, 2], []⟩, none) ∧
    unfollow_user ⟨[1, 2], []⟩ 1 2 = (⟨[1, 2], []⟩, some .NotFollowing) :=
  ⟨(follow_unfollow_branches ⟨[1, 2], [(1, 2)]⟩ 1 2 (by decide) (by decide)).1
      (by decide),
   (follow_unfollow_branches ⟨[1, 2], [(1, 2)]⟩ 1 2 (by decide) (by decide)).2.2.2
      (by decide),
   (follow_unfollow_branches ⟨[1, 2], []⟩ 1 2 (by decide) (by decide)).2.2.1
      (by decide)⟩




